import Mathlib

/-!
Verification of the sentinel-gate policy decision point (PDP).

The definitions below are a shallow embedding of the policy evaluation
engine found in src/services/policyEvaluator.ts: the JSON-like value
space, path resolution over the decision request, the condition
evaluator for the eq / ne / includes / in forms, and the first-match
policy loop with its audit-event side channel.
-/

/-- JSON-like runtime values, as manipulated by the JavaScript evaluator.
vUndef models the JavaScript value undefined, produced by lodash get
when a path segment is missing. -/
inductive JsonVal where
  | vUndef : JsonVal
  | vNull : JsonVal
  | vStr : String → JsonVal
  | vNum : Int → JsonVal
  | vBool : Bool → JsonVal
  | vArr : List JsonVal → JsonVal
  | vObj : List (String × JsonVal) → JsonVal
deriving Repr

/-- JavaScript strict equality (triple equals) restricted to the values the
evaluator compares. Arrays and objects compare by reference in JavaScript;
two operands resolved from distinct condition strings are distinct
references, so the model returns false for them. -/
def strictEq : JsonVal → JsonVal → Bool
  | JsonVal.vUndef, JsonVal.vUndef => true
  | JsonVal.vNull, JsonVal.vNull => true
  | JsonVal.vStr a, JsonVal.vStr b => a == b
  | JsonVal.vNum a, JsonVal.vNum b => a == b
  | JsonVal.vBool a, JsonVal.vBool b => a == b
  | _, _ => false

/-- First-match association-list field lookup, the object step of
lodash get. -/
def lookupField : List (String × JsonVal) → String → Option JsonVal
  | [], _ => none
  | (k2, v) :: rest, k => if k2 = k then some v else lookupField rest k

/-- lodash get: walk dot-separated segments through the context object;
a missing segment, or a non-object encountered mid-path, yields
undefined rather than an error. -/
def getPath : JsonVal → List String → JsonVal
  | v, [] => v
  | JsonVal.vObj fs, k :: ks =>
    match lookupField fs k with
    | some v => getPath v ks
    | none => JsonVal.vUndef
  | _, _ :: _ => JsonVal.vUndef

/-- Split a character list into dot-separated segments, accumulating the
current segment in reverse; mirrors the path syntax lodash get consumes
for the plain dotted paths used by the policies. -/
def splitSegsAux : List Char → List Char → List String
  | [], acc => [String.mk acc.reverse]
  | c :: cs, acc =>
    if c = '.' then String.mk acc.reverse :: splitSegsAux cs []
    else splitSegsAux cs (c :: acc)

/-- Dot-separated segments of a string. -/
def splitSegs (s : String) : List String := splitSegsAux s.data []

/-- resolvePath from policyEvaluator.ts: a string operand that does not
start with the two characters dollar + open-brace is returned as-is (a
literal); otherwise the marker syntax is stripped (slice(2, -1): drop the
first two characters and the final character) and the remaining dotted
path is looked up in the context with lodash get. -/
def resolvePath (path : String) (ctx : JsonVal) : JsonVal :=
  match path.data with
  | '$' :: '\x7b' :: rest => getPath ctx (splitSegsAux rest.dropLast [])
  | _ => JsonVal.vStr path

/-- The condition language of policyEvaluator.ts. The four primitive
forms carry their operand array (destructured to its first two entries by
the evaluator); all and anyOf are the aggregate keys that may appear in a
condition object; unknown stands for a condition object none of whose
keys is a recognized form. -/
inductive Cond where
  | eq : List String → Cond
  | ne : List String → Cond
  | includes : List String → Cond
  | inOp : List String → Cond
  | all : List Cond → Cond
  | anyOf : List Cond → Cond
  | unknown : Cond
deriving Repr

/-- Operand i of a condition after resolution: destructuring a mapped
array in JavaScript yields undefined past the end of the array. -/
def operand (ops : List String) (i : Nat) (ctx : JsonVal) : JsonVal :=
  match ops.get? i with
  | some s => resolvePath s ctx
  | none => JsonVal.vUndef

/-- evaluateCondition from policyEvaluator.ts. It tests for the keys eq,
ne, includes, in, in that order, and returns false for every other shape:
in particular a nested all or anyOf aggregate reaching this function has
none of the four keys and evaluates to false. -/
def evaluateCondition (cond : Cond) (ctx : JsonVal) : Bool :=
  match cond with
  | Cond.eq ops => strictEq (operand ops 0 ctx) (operand ops 1 ctx)
  | Cond.ne ops => !strictEq (operand ops 0 ctx) (operand ops 1 ctx)
  | Cond.includes ops =>
    match operand ops 0 ctx with
    | JsonVal.vArr xs => xs.any (fun x => strictEq x (operand ops 1 ctx))
    | _ => false
  | Cond.inOp ops =>
    match operand ops 1 ctx with
    | JsonVal.vArr xs => xs.any (fun x => strictEq x (operand ops 0 ctx))
    | _ => false
  | Cond.all _ => false
  | Cond.anyOf _ => false
  | Cond.unknown => false

/-- Condition arguments as JavaScript may actually receive them at the
untyped call site of evaluateCondition: a well-formed condition object, the
value null, or a condition object whose recognized key holds a truthy
non-array value. -/
inductive CondX where
  | wellFormed : Cond → CondX
  | nullCond : CondX
  | badOps : CondX

/-- evaluateCondition on the untyped argument space. Reading the property
eq of null throws a TypeError, and calling map on a truthy non-array
operand value throws a TypeError; both are modelled as error. A
well-formed condition object evaluates as evaluateCondition. -/
def evaluateConditionX (cond : CondX) (ctx : JsonVal) : Except Unit Bool :=
  match cond with
  | CondX.wellFormed c => Except.ok (evaluateCondition c ctx)
  | CondX.nullCond => Except.error ()
  | CondX.badOps => Except.error ()

mutual

/-- Spec-semantics condition evaluator, stated from the specification
words for comparison with the code: aggregates nest arbitrarily, all is
true iff every sub-condition is true, anyOf is true iff at least one is. -/
def specCondEval (ctx : JsonVal) : Cond → Bool
  | Cond.all cs => specCondAll ctx cs
  | Cond.anyOf cs => specCondAny ctx cs
  | c => evaluateCondition c ctx

/-- Conjunction over sub-conditions under the spec semantics. -/
def specCondAll (ctx : JsonVal) : List Cond → Bool
  | [] => true
  | c :: cs => specCondEval ctx c && specCondAll ctx cs

/-- Disjunction over sub-conditions under the spec semantics. -/
def specCondAny (ctx : JsonVal) : List Cond → Bool
  | [] => false
  | c :: cs => specCondEval ctx c || specCondAny ctx cs

end

/-- The subject of a decision request: identifier, role names, and an
open-ended bag of extra attributes. -/
structure Subject where
  sub : String
  roles : List String
  extra : List (String × JsonVal)
deriving Repr

/-- The resource of a decision request: a type discriminator plus an
open-ended bag of extra attributes. -/
structure Resource where
  type : String
  extra : List (String × JsonVal)
deriving Repr

/-- DecisionRequest from types/policy.ts: subject, action, resource and
an optional context object. -/
structure DecisionRequest where
  subject : Subject
  action : String
  resource : Resource
  context : Option JsonVal
deriving Repr

/-- The subject as the JSON object path resolution sees. -/
def Subject.toJson (s : Subject) : JsonVal :=
  JsonVal.vObj (("sub", JsonVal.vStr s.sub)
    :: ("roles", JsonVal.vArr (s.roles.map JsonVal.vStr))
    :: s.extra)

/-- The resource as the JSON object path resolution sees. -/
def Resource.toJson (r : Resource) : JsonVal :=
  JsonVal.vObj (("type", JsonVal.vStr r.type) :: r.extra)

/-- The decision request as the root context object of path resolution
(the engine passes the request itself as ctx). -/
def DecisionRequest.toCtx (req : DecisionRequest) : JsonVal :=
  JsonVal.vObj
    (("subject", req.subject.toJson)
      :: ("action", JsonVal.vStr req.action)
      :: ("resource", req.resource.toJson)
      :: (match req.context with
          | some c => [("context", c)]
          | none => []))

/-- The abac clause of a policy: optional all array and optional any
array of conditions, as read by the engine via policy.abac.all and
policy.abac.any. -/
structure Abac where
  all : Option (List Cond)
  any : Option (List Cond)
deriving Repr

/-- Policy from types/policy.ts: id, description, action scope, the
optional rbac.anyRole role list, and the optional abac clause. -/
structure Policy where
  id : String
  description : String
  actions : List String
  anyRole : Option (List String)
  abac : Option Abac
deriving Repr

/-- DecisionResponse: allow flag, reason string, and the matched policy
id when a policy matched. -/
structure DecisionResponse where
  allow : Bool
  reason : String
  matchedPolicyId : Option String
deriving Repr, DecidableEq

/-- The structured audit record handed to the logger, one per evaluate
call: info with policyId on allow, warn without one on deny. -/
structure AuditEvent where
  event : String
  timestamp : String
  user : String
  action : String
  resourceType : String
  allow : Bool
  policyId : Option String
  reason : String
deriving Repr, DecidableEq

/-- Action filter: the policy lists the wildcard or the exact action. -/
def actionMatch (p : Policy) (action : String) : Bool :=
  p.actions.contains "*" || p.actions.contains action

/-- RBAC filter: when rbac.anyRole is present, some listed role must be
among the subject roles; when absent the filter passes vacuously. -/
def rbacPass (p : Policy) (roles : List String) : Bool :=
  match p.anyRole with
  | none => true
  | some rs => rs.any (fun r => roles.contains r)

/-- ABAC all filter: when abac.all is present, every condition in it must
evaluate true; otherwise pass vacuously. -/
def abacAllPass (p : Policy) (ctx : JsonVal) : Bool :=
  match p.abac with
  | none => true
  | some ab =>
    match ab.all with
    | none => true
    | some cs => cs.all (fun c => evaluateCondition c ctx)

/-- ABAC any filter: when abac.any is present, some condition in it must
evaluate true; otherwise pass vacuously. -/
def abacAnyPass (p : Policy) (ctx : JsonVal) : Bool :=
  match p.abac with
  | none => true
  | some ab =>
    match ab.any with
    | none => true
    | some cs => cs.any (fun c => evaluateCondition c ctx)

/-- All four in-loop checks of evaluatePolicies on one policy: action
scope, rbac, abac.all, abac.any. -/
def passesAll (p : Policy) (req : DecisionRequest) : Bool :=
  actionMatch p req.action && rbacPass p req.subject.roles
    && abacAllPass p req.toCtx && abacAnyPass p req.toCtx

/-- The policy loop of evaluatePolicies: skip on any failed filter,
return the allow response and its info audit record at the first policy
passing every filter, and the no-match response with its warn audit
record when the list is exhausted. The timestamp is taken once at entry
in the source and threaded here as a parameter. -/
def evalLoop (ts : String) (req : DecisionRequest) :
    List Policy → DecisionResponse × List AuditEvent
  | [] =>
    (⟨false, "No matching policy", none⟩,
      [⟨"authorization.decision", ts, req.subject.sub, req.action,
        req.resource.type, false, none, "No matching policy"⟩])
  | p :: ps =>
    if actionMatch p req.action = false then evalLoop ts req ps
    else if rbacPass p req.subject.roles = false then evalLoop ts req ps
    else if abacAllPass p req.toCtx = false then evalLoop ts req ps
    else if abacAnyPass p req.toCtx = false then evalLoop ts req ps
    else
      (⟨true, "Matched " ++ p.description, some p.id⟩,
        [⟨"authorization.decision", ts, req.subject.sub, req.action,
          req.resource.type, true, some p.id, p.description⟩])

/-- evaluatePolicies: evaluate the request against the ordered policy
list, producing the decision response together with the audit events
emitted during the call. -/
def evaluatePolicies (ts : String) (policies : List Policy)
    (req : DecisionRequest) : DecisionResponse × List AuditEvent :=
  evalLoop ts req policies

/-- Does an operand string carry the path-reference marker, i.e. start
with the dollar and open-brace characters tested by resolvePath? -/
def isPathRef (s : String) : Bool :=
  match s.data with
  | '$' :: '\x7b' :: _ => true
  | _ => false

/-- A minimal concrete decision request used to instantiate theorems. -/
def simpleReq : DecisionRequest :=
  ⟨⟨"u1", ["user"], []⟩, "doc:read", ⟨"doc", []⟩, none⟩

/-- The admin wildcard policy of the repository's policy list. -/
def adminPol : Policy :=
  ⟨"pAdmin", "Admins can do anything", ["*"], some ["admin"], none⟩

/-- A policy whose rbac.anyRole is present but empty. -/
def emptyRolePol : Policy :=
  ⟨"pEmpty", "Role list is empty", ["*"], some [], none⟩

/-- An unrestricted wildcard policy, first of a pair. -/
def wPolA : Policy := ⟨"pA", "first wildcard", ["*"], none, none⟩

/-- An unrestricted wildcard policy, second of a pair. -/
def wPolB : Policy := ⟨"pB", "second wildcard", ["*"], none, none⟩

/-- A policy whose abac.all holds one eq condition over two paths that do
not exist in any simple request. -/
def absentPairPol : Policy :=
  ⟨"p9", "absent pair", ["*"], none,
    some ⟨some [Cond.eq ["$\x7ba.b\x7d", "$\x7bc.d\x7d"]], none⟩⟩

theorem resolvePath_literal (s : String) (ctx : JsonVal)
    (h : isPathRef s = false) : resolvePath s ctx = JsonVal.vStr s := by
  unfold isPathRef at h
  unfold resolvePath
  split
  case _ rest heq => rw [heq] at h; simp at h
  case _ => rfl

theorem evalLoop_cons_skip (ts : String) (req : DecisionRequest)
    (p : Policy) (ps : List Policy) (h : passesAll p req = false) :
    evalLoop ts req (p :: ps) = evalLoop ts req ps := by
  rw [evalLoop]
  cases h1 : actionMatch p req.action with
  | false => simp
  | true =>
    cases h2 : rbacPass p req.subject.roles with
    | false => simp [h1]
    | true =>
      cases h3 : abacAllPass p req.toCtx with
      | false => simp [h1, h2]
      | true =>
        cases h4 : abacAnyPass p req.toCtx with
        | false => simp [h1, h2, h3]
        | true => simp [passesAll, h1, h2, h3, h4] at h

theorem evalLoop_cons_pass (ts : String) (req : DecisionRequest)
    (p : Policy) (ps : List Policy) (h : passesAll p req = true) :
    evalLoop ts req (p :: ps) =
      (⟨true, "Matched " ++ p.description, some p.id⟩,
        [⟨"authorization.decision", ts, req.subject.sub, req.action,
          req.resource.type, true, some p.id, p.description⟩]) := by
  have h' := h
  simp only [passesAll, Bool.and_eq_true] at h'
  obtain ⟨⟨⟨h1, h2⟩, h3⟩, h4⟩ := h'
  rw [evalLoop]
  simp [h1, h2, h3, h4]

theorem evalLoop_append_skip (ts : String) (req : DecisionRequest)
    (xs ys : List Policy) (h : ∀ q ∈ xs, passesAll q req = false) :
    evalLoop ts req (xs ++ ys) = evalLoop ts req ys := by
  induction xs with
  | nil => rfl
  | cons q xs ih =>
    rw [List.cons_append,
      evalLoop_cons_skip ts req q (xs ++ ys) (h q (List.mem_cons_self q xs))]
    exact ih (fun r hr => h r (List.mem_cons_of_mem q hr))

theorem evalLoop_middle_skip (ts : String) (req : DecisionRequest)
    (p : Policy) (hp : passesAll p req = false) (xs ys : List Policy) :
    evalLoop ts req (xs ++ p :: ys) = evalLoop ts req (xs ++ ys) := by
  induction xs with
  | nil => simpa using evalLoop_cons_skip ts req p ys hp
  | cons q xs ih =>
    cases hq : passesAll q req with
    | false =>
      rw [List.cons_append, List.cons_append,
        evalLoop_cons_skip ts req q _ hq, evalLoop_cons_skip ts req q _ hq]
      exact ih
    | true =>
      rw [List.cons_append, List.cons_append,
        evalLoop_cons_pass ts req q _ hq, evalLoop_cons_pass ts req q _ hq]

theorem matchedId_eq_allow (ts : String) (req : DecisionRequest)
    (ps : List Policy) :
    ((evalLoop ts req ps).1.matchedPolicyId).isSome
      = (evalLoop ts req ps).1.allow := by
  induction ps with
  | nil => rfl
  | cons p ps ih =>
    cases hp : passesAll p req with
    | false => rw [evalLoop_cons_skip ts req p ps hp]; exact ih
    | true => rw [evalLoop_cons_pass ts req p ps hp]; rfl

/-- Claim C8: for every fixed decision request and policy list, two calls
to evaluate return identical DecisionResponse values; in particular the
response does not depend on the per-call timestamp, the only input that
differs between repeated calls. -/
theorem evaluate_deterministic (ts1 ts2 : String) (ps : List Policy)
    (req : DecisionRequest) :
    (evaluatePolicies ts1 ps req).1 = (evaluatePolicies ts2 ps req).1 := by
  unfold evaluatePolicies
  induction ps with
  | nil => rfl
  | cons p ps ih =>
    cases hp : passesAll p req with
    | false =>
      rw [evalLoop_cons_skip ts1 req p ps hp, evalLoop_cons_skip ts2 req p ps hp]
      exact ih
    | true =>
      rw [evalLoop_cons_pass ts1 req p ps hp, evalLoop_cons_pass ts2 req p ps hp]

/-- Claim C3: when no policy in the list passes all three filters (the
empty list included), evaluate returns allow false with reason exactly
"No matching policy" and no matchedPolicyId; and in every response the
matchedPolicyId field is present exactly when allow is true. -/
theorem no_matching_policy_default (ts : String) (ps : List Policy)
    (req : DecisionRequest) (h : ∀ p ∈ ps, passesAll p req = false) :
    (evaluatePolicies ts ps req).1 = ⟨false, "No matching policy", none⟩
    ∧ ∀ (ts2 : String) (ps2 : List Policy) (req2 : DecisionRequest),
        ((evaluatePolicies ts2 ps2 req2).1.matchedPolicyId).isSome
          = (evaluatePolicies ts2 ps2 req2).1.allow := by
  constructor
  · unfold evaluatePolicies
    have hy := evalLoop_append_skip ts req ps [] h
    rw [List.append_nil] at hy
    rw [hy]
    rfl
  · intro ts2 ps2 req2
    exact matchedId_eq_allow ts2 req2 ps2

/-- Witness for C3: the empty policy list denies any request with the
fixed no-match response. -/
theorem no_matching_policy_default_witness :
    (evaluatePolicies "t" [] simpleReq).1
        = ⟨false, "No matching policy", none⟩
    ∧ ∀ (ts2 : String) (ps2 : List Policy) (req2 : DecisionRequest),
        ((evaluatePolicies ts2 ps2 req2).1.matchedPolicyId).isSome
          = (evaluatePolicies ts2 ps2 req2).1.allow :=
  no_matching_policy_default "t" [] simpleReq (by simp)

/-- Claim C4: with rbac.anyRole present, the RBAC filter passes exactly
when some listed role is among the subject roles; with it absent the
filter passes vacuously; and a policy restricted to the admin role never
matches a request whose subject lacks that role — the engine skips it
entirely. -/
theorem rbac_gate (p : Policy) (req : DecisionRequest) (rs : List String)
    (hrs : p.anyRole = some rs) :
    (rbacPass p req.subject.roles = true ↔ ∃ r, r ∈ rs ∧ r ∈ req.subject.roles)
    ∧ (∀ (q : Policy) (roles : List String),
        q.anyRole = none → rbacPass q roles = true)
    ∧ (rs = ["admin"] → "admin" ∉ req.subject.roles →
        passesAll p req = false
        ∧ ∀ (ts : String) (xs ys : List Policy),
            evaluatePolicies ts (xs ++ p :: ys) req
              = evaluatePolicies ts (xs ++ ys) req) := by
  refine ⟨?_, ?_, ?_⟩
  · simp [rbacPass, hrs, List.any_eq_true]
  · intro q roles hq
    simp [rbacPass, hq]
  · intro hadmin hmem
    have hrb : rbacPass p req.subject.roles = false := by
      subst hadmin
      simp [rbacPass, hrs, List.any_eq_true, hmem]
    have hpa : passesAll p req = false := by
      simp [passesAll, hrb]
    refine ⟨hpa, ?_⟩
    intro ts xs ys
    unfold evaluatePolicies
    exact evalLoop_middle_skip ts req p hpa xs ys

/-- Witness for C4: the admin-only wildcard policy is skipped for a
subject holding only the user role. -/
theorem rbac_gate_witness :
    passesAll adminPol simpleReq = false
    ∧ evaluatePolicies "t" ([] ++ adminPol :: []) simpleReq
        = evaluatePolicies "t" ([] ++ []) simpleReq := by
  have h := (rbac_gate adminPol simpleReq ["admin"] rfl).2.2 rfl (by decide)
  exact ⟨h.1, h.2 "t" [] []⟩

/-- Claim C10: a policy whose rbac.anyRole is the empty array fails the
RBAC filter for every request, hence never matches: the engine skips it
wherever it sits in the list, whatever the action and abac clauses. -/
theorem empty_anyRole_never_matches (p : Policy) (req : DecisionRequest)
    (h : p.anyRole = some []) :
    rbacPass p req.subject.roles = false
    ∧ passesAll p req = false
    ∧ ∀ (ts : String) (xs ys : List Policy),
        evaluatePolicies ts (xs ++ p :: ys) req
          = evaluatePolicies ts (xs ++ ys) req := by
  have hrb : rbacPass p req.subject.roles = false := by
    simp [rbacPass, h]
  have hpa : passesAll p req = false := by
    simp [passesAll, hrb]
  refine ⟨hrb, hpa, ?_⟩
  intro ts xs ys
  unfold evaluatePolicies
  exact evalLoop_middle_skip ts req p hpa xs ys

/-- Witness for C10: the empty-anyRole wildcard policy is skipped even for
a request its action and abac clauses accept. -/
theorem empty_anyRole_never_matches_witness :
    rbacPass emptyRolePol simpleReq.subject.roles = false
    ∧ passesAll emptyRolePol simpleReq = false
    ∧ evaluatePolicies "t" ([emptyRolePol] ++ [] ) simpleReq
        = evaluatePolicies "t" ([] ++ []) simpleReq := by
  have h := empty_anyRole_never_matches emptyRolePol simpleReq rfl
  exact ⟨h.1, h.2.1, h.2.2 "t" [] []⟩

/-- Claim C1: when two policies both pass the action, RBAC and ABAC
filters for a request and no earlier policy does, evaluation returns
allow true with the id of the earlier of the two; the result equals the
result with everything after that policy dropped, so later policies are
never examined; and reversing the pair returns the other id. -/
theorem first_match_wins (ts : String) (req : DecisionRequest)
    (p1 p2 : Policy) (xs ys zs ys2 zs2 : List Policy)
    (hxs : ∀ q ∈ xs, passesAll q req = false)
    (h1 : passesAll p1 req = true) (h2 : passesAll p2 req = true)
    (hid : p1.id ≠ p2.id) :
    (evaluatePolicies ts (xs ++ p1 :: (ys ++ p2 :: zs)) req).1
        = ⟨true, "Matched " ++ p1.description, some p1.id⟩
    ∧ (evaluatePolicies ts (xs ++ p1 :: (ys ++ p2 :: zs)) req).1
        = (evaluatePolicies ts (xs ++ [p1]) req).1
    ∧ (evaluatePolicies ts (xs ++ p2 :: (ys2 ++ p1 :: zs2)) req).1.matchedPolicyId
        = some p2.id
    ∧ (evaluatePolicies ts (xs ++ p2 :: (ys2 ++ p1 :: zs2)) req).1.matchedPolicyId
        ≠ (evaluatePolicies ts (xs ++ p1 :: (ys ++ p2 :: zs)) req).1.matchedPolicyId := by
  unfold evaluatePolicies
  have e1 : evalLoop ts req (xs ++ p1 :: (ys ++ p2 :: zs))
      = (⟨true, "Matched " ++ p1.description, some p1.id⟩,
          [⟨"authorization.decision", ts, req.subject.sub, req.action,
            req.resource.type, true, some p1.id, p1.description⟩]) := by
    rw [evalLoop_append_skip ts req xs _ hxs, evalLoop_cons_pass ts req p1 _ h1]
  have e2 : evalLoop ts req (xs ++ p2 :: (ys2 ++ p1 :: zs2))
      = (⟨true, "Matched " ++ p2.description, some p2.id⟩,
          [⟨"authorization.decision", ts, req.subject.sub, req.action,
            req.resource.type, true, some p2.id, p2.description⟩]) := by
    rw [evalLoop_append_skip ts req xs _ hxs, evalLoop_cons_pass ts req p2 _ h2]
  have e3 : evalLoop ts req (xs ++ [p1])
      = (⟨true, "Matched " ++ p1.description, some p1.id⟩,
          [⟨"authorization.decision", ts, req.subject.sub, req.action,
            req.resource.type, true, some p1.id, p1.description⟩]) := by
    rw [evalLoop_append_skip ts req xs _ hxs, evalLoop_cons_pass ts req p1 _ h1]
  rw [e1, e2, e3]
  refine ⟨rfl, rfl, rfl, ?_⟩
  simp only [ne_eq, Option.some.injEq]
  exact fun hc => hid hc.symm

/-- Witness for C1: two unrestricted wildcard policies; list order picks
pA, reversed order picks pB. -/
theorem first_match_wins_witness :
    (evaluatePolicies "t" ([] ++ wPolA :: ([] ++ wPolB :: [])) simpleReq).1
        = ⟨true, "Matched " ++ wPolA.description, some wPolA.id⟩
    ∧ (evaluatePolicies "t" ([] ++ wPolB :: ([] ++ wPolA :: [])) simpleReq).1.matchedPolicyId
        = some wPolB.id := by
  have h := first_match_wins "t" simpleReq wPolA wPolB [] [] [] [] []
    (by simp) (by decide) (by decide) (by decide)
  exact ⟨h.1, h.2.2.1⟩

/-- Claim C6: a dot-separated walk that hits a missing segment resolves
to the absent value rather than an error, and the absent value takes part
in the checks normally: eq against a concrete literal is false, the
matching ne is true, and includes and in are false when the operand that
must be an array is absent. -/
theorem missing_path_resolution (fs : List (String × JsonVal)) (k : String)
    (rest : List String) (hk : lookupField fs k = none)
    (pathRef lit x : String) (ctx : JsonVal)
    (hp : resolvePath pathRef ctx = JsonVal.vUndef)
    (hl : isPathRef lit = false) :
    getPath (JsonVal.vObj fs) (k :: rest) = JsonVal.vUndef
    ∧ evaluateCondition (Cond.eq [pathRef, lit]) ctx = false
    ∧ evaluateCondition (Cond.eq [lit, pathRef]) ctx = false
    ∧ evaluateCondition (Cond.ne [pathRef, lit]) ctx = true
    ∧ evaluateCondition (Cond.ne [lit, pathRef]) ctx = true
    ∧ evaluateCondition (Cond.includes [pathRef, x]) ctx = false
    ∧ evaluateCondition (Cond.inOp [x, pathRef]) ctx = false := by
  have hres : resolvePath lit ctx = JsonVal.vStr lit :=
    resolvePath_literal lit ctx hl
  refine ⟨?_, ?_, ?_, ?_, ?_, ?_, ?_⟩
  · rw [getPath, hk]
  · simp [evaluateCondition, operand, hp, hres, strictEq]
  · simp [evaluateCondition, operand, hp, hres, strictEq]
  · simp [evaluateCondition, operand, hp, hres, strictEq]
  · simp [evaluateCondition, operand, hp, hres, strictEq]
  · simp [evaluateCondition, operand, hp]
  · simp [evaluateCondition, operand, hp]

/-- Witness for C6: resolving the nonexistent path subject.missing in a
concrete request yields the absent value, which is not eq to the literal
OPEN, is ne to it, and fails includes and in. -/
theorem missing_path_resolution_witness :
    getPath (JsonVal.vObj [("a", JsonVal.vStr "1")]) ("b" :: []) = JsonVal.vUndef
    ∧ evaluateCondition (Cond.eq ["$\x7bsubject.missing\x7d", "OPEN"])
        simpleReq.toCtx = false
    ∧ evaluateCondition (Cond.ne ["$\x7bsubject.missing\x7d", "OPEN"])
        simpleReq.toCtx = true
    ∧ evaluateCondition (Cond.includes ["$\x7bsubject.missing\x7d", "x"])
        simpleReq.toCtx = false
    ∧ evaluateCondition (Cond.inOp ["x", "$\x7bsubject.missing\x7d"])
        simpleReq.toCtx = false := by
  have h := missing_path_resolution [("a", JsonVal.vStr "1")] "b" []
    rfl "$\x7bsubject.missing\x7d" "OPEN" "x" simpleReq.toCtx rfl rfl
  exact ⟨h.1, h.2.1, h.2.2.2.1, h.2.2.2.2.2.1, h.2.2.2.2.2.2⟩

/-- Claim C9: an eq condition over two path references that both resolve
to the absent value evaluates true, because in JavaScript undefined is
strictly equal to undefined; such a condition satisfies a policy's abac
clause and so can contribute to a policy match. -/
theorem absent_eq_absent (p1 p2 : String) (req : DecisionRequest)
    (h1 : resolvePath p1 req.toCtx = JsonVal.vUndef)
    (h2 : resolvePath p2 req.toCtx = JsonVal.vUndef) :
    evaluateCondition (Cond.eq [p1, p2]) req.toCtx = true
    ∧ ∀ pol : Policy,
        pol.abac = some ⟨some [Cond.eq [p1, p2]], none⟩ →
        abacAllPass pol req.toCtx = true
        ∧ abacAnyPass pol req.toCtx = true
        ∧ (actionMatch pol req.action = true →
            rbacPass pol req.subject.roles = true →
            passesAll pol req = true) := by
  have he : evaluateCondition (Cond.eq [p1, p2]) req.toCtx = true := by
    simp [evaluateCondition, operand, h1, h2, strictEq]
  refine ⟨he, ?_⟩
  intro pol hab
  have hall : abacAllPass pol req.toCtx = true := by
    simp [abacAllPass, hab, he]
  have hany : abacAnyPass pol req.toCtx = true := by
    simp [abacAnyPass, hab]
  refine ⟨hall, hany, ?_⟩
  intro ha hr
  simp [passesAll, ha, hr, hall, hany]

/-- Witness for C9: the eq condition over two nonexistent paths holds in
a concrete request and the wildcard policy carrying it matches. -/
theorem absent_eq_absent_witness :
    evaluateCondition (Cond.eq ["$\x7ba.b\x7d", "$\x7bc.d\x7d"])
        simpleReq.toCtx = true
    ∧ passesAll absentPairPol simpleReq = true := by
  have h := absent_eq_absent "$\x7ba.b\x7d" "$\x7bc.d\x7d" simpleReq rfl rfl
  exact ⟨h.1, (h.2 absentPairPol rfl).2.2 rfl rfl⟩

/-- Counterexample to C2: a null condition makes the evaluator read the
property eq of null, which throws rather than returning false; and an eq
condition with an empty operand array returns true, not false, because
destructuring yields undefined on both sides. -/
theorem malformed_condition_cex :
    evaluateConditionX CondX.nullCond (JsonVal.vObj []) = Except.error ()
    ∧ evaluateCondition (Cond.eq []) (JsonVal.vObj []) = true :=
  ⟨rfl, rfl⟩

/-- Claim C2 as amended: a condition with no recognized form key,
including an aggregate reaching evaluateCondition, returns false without
throwing; but a null condition or a recognized key holding a truthy
non-array value throws a TypeError, and an eq with missing operands
returns true (undefined strictly equals undefined) while the matching ne
returns false. -/
theorem malformed_condition_behavior (ctx : JsonVal) :
    evaluateCondition Cond.unknown ctx = false
    ∧ (∀ cs : List Cond,
        evaluateCondition (Cond.all cs) ctx = false
        ∧ evaluateCondition (Cond.anyOf cs) ctx = false)
    ∧ evaluateConditionX CondX.nullCond ctx = Except.error ()
    ∧ evaluateConditionX CondX.badOps ctx = Except.error ()
    ∧ evaluateCondition (Cond.eq []) ctx = true
    ∧ evaluateCondition (Cond.ne []) ctx = false := by
  refine ⟨rfl, fun cs => ⟨rfl, rfl⟩, rfl, rfl, ?_, ?_⟩
  · simp [evaluateCondition, operand, strictEq]
  · simp [evaluateCondition, operand, strictEq]

/-- Counterexample to C5: under the spec reading an all aggregate with no
sub-conditions is true, and so is an all aggregate nested inside another,
but evaluateCondition recognizes no aggregate key and returns false for
the nested aggregate, so a policy whose abac.all contains a nested all of
only true sub-conditions fails its abac filter. -/
theorem aggregate_nesting_cex :
    specCondEval (JsonVal.vObj []) (Cond.all []) = true
    ∧ evaluateCondition (Cond.all []) (JsonVal.vObj []) = false
    ∧ specCondEval (JsonVal.vObj []) (Cond.all [Cond.all []]) = true
    ∧ abacAllPass
        ⟨"pN", "nested aggregate", ["*"], none, some ⟨some [Cond.all []], none⟩⟩
        (JsonVal.vObj []) = false :=
  ⟨rfl, rfl, rfl, rfl⟩

/-- Claim C5 as amended: at the top level of a policy's abac clause, the
all array passes exactly when every condition in it evaluates true under
evaluateCondition (the empty array passes) and the any array passes
exactly when at least one does (the empty array fails); aggregates do not
nest — evaluateCondition returns false for any all or any condition
appearing as a sub-condition, whatever its sub-conditions. -/
theorem aggregate_semantics (p : Policy) (ctx : JsonVal)
    (cs ds : List Cond) (h : p.abac = some ⟨some cs, some ds⟩) :
    (abacAllPass p ctx = cs.all (fun c => evaluateCondition c ctx))
    ∧ (abacAnyPass p ctx = ds.any (fun c => evaluateCondition c ctx))
    ∧ (cs = [] → abacAllPass p ctx = true)
    ∧ (ds = [] → abacAnyPass p ctx = false)
    ∧ (∀ (es : List Cond) (ctx2 : JsonVal),
        evaluateCondition (Cond.all es) ctx2 = false
        ∧ evaluateCondition (Cond.anyOf es) ctx2 = false) := by
  have hall : abacAllPass p ctx = cs.all (fun c => evaluateCondition c ctx) := by
    simp [abacAllPass, h]
  have hany : abacAnyPass p ctx = ds.any (fun c => evaluateCondition c ctx) := by
    simp [abacAnyPass, h]
  refine ⟨hall, hany, ?_, ?_, fun es ctx2 => ⟨rfl, rfl⟩⟩
  · intro hcs; subst hcs; simpa using hall
  · intro hds; subst hds; simpa using hany

/-- Witness for C5 as amended: a policy with an empty all array and a
one-condition any array over a concrete context. -/
theorem aggregate_semantics_witness :
    abacAllPass
        ⟨"pW", "aggregate witness", ["*"], none,
          some ⟨some [], some [Cond.eq ["x", "x"]]⟩⟩ (JsonVal.vObj []) = true
    ∧ abacAnyPass
        ⟨"pW", "aggregate witness", ["*"], none,
          some ⟨some [], some [Cond.eq ["x", "x"]]⟩⟩ (JsonVal.vObj [])
        = [Cond.eq ["x", "x"]].any
            (fun c => evaluateCondition c (JsonVal.vObj [])) := by
  have h := aggregate_semantics
    ⟨"pW", "aggregate witness", ["*"], none,
      some ⟨some [], some [Cond.eq ["x", "x"]]⟩⟩
    (JsonVal.vObj []) [] [Cond.eq ["x", "x"]] rfl
  exact ⟨h.2.2.1 rfl, h.2.1⟩

/-- Claim C7: every call to evaluate emits exactly one structured audit
record, whatever the outcome: its event name is authorization.decision,
it carries the call timestamp, the subject identifier, the action, the
resource type and the final allow flag, its policyId mirrors the
response's matchedPolicyId, and on allow it names the matched policy and
carries that policy's description as reason. -/
theorem audit_exactly_once (ts : String) (ps : List Policy)
    (req : DecisionRequest) :
    ∃ ev : AuditEvent,
      (evaluatePolicies ts ps req).2 = [ev]
      ∧ ev.event = "authorization.decision"
      ∧ ev.timestamp = ts
      ∧ ev.user = req.subject.sub
      ∧ ev.action = req.action
      ∧ ev.resourceType = req.resource.type
      ∧ ev.allow = (evaluatePolicies ts ps req).1.allow
      ∧ ev.policyId = (evaluatePolicies ts ps req).1.matchedPolicyId
      ∧ ((ev.allow = false ∧ ev.reason = "No matching policy")
          ∨ (∃ p, p ∈ ps ∧ passesAll p req = true ∧ ev.allow = true
              ∧ ev.policyId = some p.id ∧ ev.reason = p.description)) := by
  unfold evaluatePolicies
  induction ps with
  | nil =>
    exact ⟨_, rfl, rfl, rfl, rfl, rfl, rfl, rfl, rfl, Or.inl ⟨rfl, rfl⟩⟩
  | cons p ps ih =>
    cases hp : passesAll p req with
    | false =>
      rw [evalLoop_cons_skip ts req p ps hp]
      obtain ⟨ev, he, h1, h2, h3, h4, h5, h6, h7, h8⟩ := ih
      refine ⟨ev, he, h1, h2, h3, h4, h5, h6, h7, ?_⟩
      rcases h8 with h8 | ⟨q, hq, hrest⟩
      · exact Or.inl h8
      · exact Or.inr ⟨q, List.mem_cons_of_mem p hq, hrest⟩
    | true =>
      rw [evalLoop_cons_pass ts req p ps hp]
      exact ⟨_, rfl, rfl, rfl, rfl, rfl, rfl, rfl, rfl,
        Or.inr ⟨p, List.mem_cons_self p ps, hp, rfl, rfl, rfl⟩⟩
